import Mathlib

/-!
Verification of the podcast-generator pipeline (shallow embedding).

Audio is modelled at millisecond resolution: an `AudioSegment` is a
`List Int` of mixed sample values, one per millisecond, so `List.length`
is the duration in milliseconds.  pydub operations are embedded as:
  * `a + b`  (concatenation)        → `List.append`
  * `AudioSegment.silent d`         → `silence d`
  * `a[i:j]` (slicing)              → `List.take` / `List.drop`
  * `a.overlay b` (additive mixing) → `overlay`
  * `a * n`  (repetition)           → `tile`
  * `a - db` (gain reduction)       → `apply_gain g` for a sample-wise
    gain map `g` (the dB→factor conversion is floating-point and out of
    scope; every sample-wise map preserves length, which is all the
    claims depend on).
Fallible Python code (raised exceptions) is modelled with `Option`.
-/

def silence (d : Nat) : List Int := List.replicate d 0

/-- pydub `base.overlay ov`: additive per-sample mix; the result keeps the
length of `base` (the overlaid sound is truncated to fit). -/
def overlay (base ov : List Int) : List Int :=
  (List.zipWith (· + ·) base ov) ++ base.drop ov.length

/-- pydub `seg - db`, as a sample-wise gain map. -/
def apply_gain (g : Int → Int) (a : List Int) : List Int := a.map g

/-- pydub `seg * n`: the segment repeated `n` times. -/
def tile (clip : List Int) : Nat → List Int
  | 0 => []
  | n + 1 => clip ++ tile clip n

/-- The duration-adjustment step of `SoundEffectsGenerator.generate_sfx`
(v2 lines 627-634; identically `SoundEffectsManager.get_sfx_clip` in v1):
truncate when too long, tile `duration_ms // len(sfx) + 1` times and
truncate when too short.  `none` models the `ZeroDivisionError` that
Python raises in the tiling branch when `len(sfx) = 0`. -/
def fit_duration (sfx : List Int) (duration_ms : Nat) : Option (List Int) :=
  if duration_ms < sfx.length then
    some (sfx.take duration_ms)
  else if sfx.length < duration_ms then
    if sfx.length = 0 then
      none
    else
      let repetitions := duration_ms / sfx.length + 1
      some ((tile sfx repetitions).take duration_ms)
  else
    some sfx

/-- The SFX branch of `PodcastGenerator.generate` (v2 lines 711-732):
overlay the clip onto the last 2000 ms when overlap is enabled and the
buffer is long enough, else plain append. -/
def overlaySfx (sfx_overlap : Bool) (podcast sfx_clip : List Int) : List Int :=
  if sfx_overlap = true ∧ 2000 < podcast.length then
    podcast.take (podcast.length - 2000) ++
      overlay (podcast.drop (podcast.length - 2000))
        (if (podcast.drop (podcast.length - 2000)).length < sfx_clip.length
         then sfx_clip.take (podcast.drop (podcast.length - 2000)).length
         else sfx_clip)
  else
    podcast ++ sfx_clip

/-! ## Script parsing (`ScriptParser.parse`, v2 lines 372-437)

String manipulation is embedded over the character list, matching the
Python semantics (`str.strip`, `str.lower`, `" ".join`, and the anchored
regexes `\[SPEAKER:\s*([^\]]+)\]` / `\[SFX:\s*([^\]]+)\]`). -/

def isPySpace (c : Char) : Bool :=
  c = ' ' ∨ c = '\t' ∨ c = '\n' ∨ c = '\r' ∨ c = '\x0b' ∨ c = '\x0c'

/-- Python `str.strip()`. -/
def pyStrip (s : String) : String :=
  String.mk (((s.toList.dropWhile isPySpace).reverse.dropWhile isPySpace).reverse)

/-- Python `str.lower()` (ASCII-relevant part). -/
def pyLower (s : String) : String :=
  String.mk (s.toList.map Char.toLower)

/-- `re.match` of the pattern `\[TAG:\s*([^\]]+)\]` against `line`,
returning group 1.  `\s*` is greedy but backtracks one character into
`[^\]]+` when the bracket follows the whitespace run directly. -/
def matchTag (tag : String) (line : String) : Option String :=
  let chars := line.toList
  let lit := ("[" ++ tag ++ ":").toList
  if chars.take lit.length = lit then
    let rest := chars.drop lit.length
    let ws := rest.takeWhile isPySpace
    let rest2 := rest.drop ws.length
    let grp := rest2.takeWhile (fun c => ¬ c = ']')
    let rest3 := rest2.drop grp.length
    match rest3 with
    | ']' :: _ =>
      if grp.isEmpty then
        match ws.getLast? with
        | some c => some (String.mk [c])
        | none => none
      else
        some (String.mk grp)
    | _ => none
  else none

inductive Chunk where
  | dialogue (speaker text : String)
  | sfx (effect : String)
deriving DecidableEq, Repr

/-- The line loop of `ScriptParser.parse`: blank lines are skipped, a
speaker tag flushes the buffer under the previous speaker and emits no
chunk, an SFX tag flushes the buffer and emits an effect chunk, any
other line is buffered, and a final nonempty buffer is flushed. -/
def parseLoop : List String → String → List String → List Chunk
  | [], current_speaker, buffer =>
    if buffer.isEmpty then []
    else [Chunk.dialogue current_speaker (String.intercalate " " buffer)]
  | l :: ls, current_speaker, buffer =>
    let line := pyStrip l
    if line = "" then parseLoop ls current_speaker buffer
    else
      match matchTag "SPEAKER" line with
      | some name =>
        (if buffer.isEmpty then []
         else [Chunk.dialogue current_speaker (String.intercalate " " buffer)])
          ++ parseLoop ls (pyStrip name) []
      | none =>
        match matchTag "SFX" line with
        | some effect =>
          (if buffer.isEmpty then []
           else [Chunk.dialogue current_speaker (String.intercalate " " buffer)])
            ++ (Chunk.sfx (pyStrip effect) :: parseLoop ls current_speaker [])
        | none => parseLoop ls current_speaker (buffer ++ [line])

/-- `ScriptParser.parse` over the list of raw lines read from the script
file (`f.readlines()` keeps the trailing newline; the loop strips it). -/
def parse (lines : List String) : List Chunk :=
  parseLoop lines "Default" []

/-! ## Credential pool (`ApiKeyManager`) -/

/-- `ApiKeyManager.get_next_api_key` (v2 lines 268-273): hand out the key
at the cursor and advance the cursor modulo the pool size. -/
def get_next_api_key (api_keys : List String) (current_index : Nat) :
    String × Nat :=
  (api_keys.getD current_index "", (current_index + 1) % api_keys.length)

/-- Iterating `get_next_api_key` `k` times from cursor `current_index`:
the issued keys in order, and the final cursor. -/
def issueKeys (api_keys : List String) : Nat → Nat → List String × Nat
  | 0, current_index => ([], current_index)
  | k + 1, current_index =>
    let r := get_next_api_key api_keys current_index
    let rest := issueKeys api_keys k r.2
    (r.1 :: rest.1, rest.2)

/-- Classified outcome of one outbound request inside
`ApiKeyManager.make_api_call`: HTTP 200, HTTP 429/401 (rotate), any
other status, or a raised exception. -/
inductive ApiOutcome where
  | ok
  | authQuota
  | otherStatus
  | exn
deriving DecidableEq, Repr

/-- The retry loop of `ApiKeyManager.make_api_call` (v2 lines 314-362),
with the network abstracted as an oracle from the attempt number to its
outcome.  Arguments: remaining attempts (`max_retries - current_attempt`)
and the number of attempts already made; result: `some ()` for a
returned response or `none` for a `None` result, paired with the total
number of attempts made. -/
def makeApiCallLoop (retry_failed_calls : Bool) (oracle : Nat → ApiOutcome) :
    Nat → Nat → Option Unit × Nat
  | 0, attempts => (none, attempts)
  | remaining + 1, attempts =>
    match oracle attempts with
    | ApiOutcome.ok => (some (), attempts + 1)
    | ApiOutcome.authQuota =>
      makeApiCallLoop retry_failed_calls oracle remaining (attempts + 1)
    | ApiOutcome.otherStatus =>
      if retry_failed_calls then
        makeApiCallLoop retry_failed_calls oracle remaining (attempts + 1)
      else (none, attempts + 1)
    | ApiOutcome.exn =>
      if retry_failed_calls then
        makeApiCallLoop retry_failed_calls oracle remaining (attempts + 1)
      else (none, attempts + 1)

/-- `ApiKeyManager.make_api_call`: run the retry loop from attempt 0 with
`max_retries` attempts available. -/
def make_api_call (retry_failed_calls : Bool) (oracle : Nat → ApiOutcome)
    (max_retries : Nat) : Option Unit × Nat :=
  makeApiCallLoop retry_failed_calls oracle max_retries 0

/-! ## Usage ledger (`ApiKeyManager.log_credit_usage`, v2 lines 275-296) -/

structure CallRecord where
  timestamp : String
  operation_type : String
  character_count : Nat
  credits_used : Nat
deriving DecidableEq, Repr

structure KeyLog where
  total_credits_used : Nat
  calls : List CallRecord
deriving DecidableEq, Repr

/-- The display id of a key: `api_key[:8] + '...'`. -/
def keyId (api_key : String) : String :=
  String.mk (api_key.toList.take 8) ++ "..."

/-- `ApiKeyManager.log_credit_usage`: insert an empty entry for the key
id when absent, add `credits_used` to the running total, and append one
call record.  The credits log (a Python dict) is an association list
with unique keys; the update maps over all entries with the key id. -/
def log_credit_usage (credits_log : List (String × KeyLog))
    (api_key : String) (character_count credits_used : Nat)
    (operation_type timestamp : String) : List (String × KeyLog) :=
  let key_id := keyId api_key
  let log1 := if (credits_log.lookup key_id).isSome then credits_log
    else credits_log ++ [(key_id, ⟨0, []⟩)]
  log1.map (fun e =>
    if e.1 = key_id then
      (e.1, ⟨e.2.total_credits_used + credits_used,
        e.2.calls ++ [⟨timestamp, operation_type, character_count,
          credits_used⟩]⟩)
    else e)

/-- The ledger invariant: each entry's running total equals the sum of
`credits_used` over its recorded calls. -/
def ledgerWf (credits_log : List (String × KeyLog)) : Prop :=
  ∀ e ∈ credits_log,
    e.2.total_credits_used = (e.2.calls.map CallRecord.credits_used).sum

/-! ## Synthesis wrappers and the generation pipeline

The network responses are abstracted as oracles (`none` models a `None`
result after exhausted retries); everything downstream of the response
is embedded from the source. -/

/-- `SpeechSynthesizer.synthesize` (v2 lines 454-526): empty or
whitespace-only text short-circuits to `None`; otherwise the result is
whatever the guarded API call produced. -/
def synthesize (speechOracle : String → String → Option (List Int))
    (text speaker : String) : Option (List Int) :=
  if pyStrip text = "" then none
  else speechOracle text speaker

/-- `SoundEffectsGenerator.generate_sfx` (v2 lines 550-647): unknown
effect names (no configured prompt) yield `None`; otherwise the fetched
clip is gain-reduced and fitted to the requested duration.  A
`ZeroDivisionError` from the fitting step is caught by the surrounding
handler and also yields `None`. -/
def generate_sfx (sfx_prompts : List (String × String))
    (sfxOracle : String → Option (List Int)) (g : Int → Int)
    (duration_ms : Nat) (effect_name : String) : Option (List Int) :=
  match sfx_prompts.lookup (pyLower effect_name) with
  | none => none
  | some _ =>
    match sfxOracle effect_name with
    | none => none
    | some raw => fit_duration (apply_gain g raw) duration_ms

/-- One iteration of the chunk loop of `PodcastGenerator.generate`
(v2 lines 692-735): dialogue gets a 300 ms pre-roll when synthesis
succeeds, effects go through `overlaySfx`, failed chunks are skipped,
and the inter-chunk silence is appended once per chunk either way. -/
def chunkStep (speechOracle : String → String → Option (List Int))
    (sfxOracle : String → Option (List Int))
    (sfx_prompts : List (String × String)) (g : Int → Int)
    (duration_ms : Nat) (sfx_overlap : Bool)
    (silence_between_chunks : Nat) (podcast : List Int) :
    Chunk → List Int
  | Chunk.dialogue speaker text =>
    (match synthesize speechOracle text speaker with
      | some audio => podcast ++ silence 300 ++ audio
      | none => podcast) ++ silence silence_between_chunks
  | Chunk.sfx effect =>
    (match generate_sfx sfx_prompts sfxOracle g duration_ms effect with
      | some sfx_clip => overlaySfx sfx_overlap podcast sfx_clip
      | none => podcast) ++ silence silence_between_chunks

/-- `PodcastGenerator.generate` (v2 lines 673-752): parse the script,
return failure immediately when no chunks were produced, else fold the
chunk loop over an initial lead-in silence.  The export step is an
external encoder write, modelled as succeeding; the boolean is the
function's return value and the list the assembled timeline. -/
def generate (speechOracle : String → String → Option (List Int))
    (sfxOracle : String → Option (List Int))
    (sfx_prompts : List (String × String)) (g : Int → Int)
    (duration_ms : Nat) (sfx_overlap : Bool)
    (intro_silence silence_between_chunks : Nat)
    (scriptLines : List String) : Bool × List Int :=
  let chunks := parse scriptLines
  if chunks.isEmpty then (false, [])
  else
    (true,
      chunks.foldl
        (chunkStep speechOracle sfxOracle sfx_prompts g duration_ms
          sfx_overlap silence_between_chunks)
        (silence intro_silence))

/-- The fitting rule as the spec states it (§4.5): truncate when the
clip is longer than the target, tile `ceil(t/d)` copies then truncate
when shorter, unchanged when equal. -/
def fitSpec (clip : List Int) (t : Nat) : List Int :=
  if t < clip.length then clip.take t
  else if clip.length < t then
    (tile clip ((t + clip.length - 1) / clip.length)).take t
  else clip

/-! ## Helper lemmas -/

theorem silence_length (d : Nat) : (silence d).length = d := by
  simp [silence]

theorem overlay_length (base ov : List Int) :
    (overlay base ov).length = base.length := by
  simp [overlay]
  omega

theorem tile_length (clip : List Int) : ∀ n, (tile clip n).length = n * clip.length
  | 0 => by simp [tile]
  | n + 1 => by
    simp [tile, tile_length clip n]
    ring

theorem tile_add (clip : List Int) (a b : Nat) :
    tile clip (a + b) = tile clip a ++ tile clip b := by
  induction a with
  | zero => simp [tile]
  | succ a ih =>
    rw [Nat.succ_add]
    simp [tile, ih]

theorem tile_take_eq (clip : List Int) (t a b : Nat) (hab : a ≤ b)
    (ht : t ≤ a * clip.length) :
    (tile clip b).take t = (tile clip a).take t := by
  obtain ⟨c, rfl⟩ : ∃ c, b = a + c := ⟨b - a, by omega⟩
  rw [tile_add, List.take_append_eq_append_take, tile_length,
    Nat.sub_eq_zero_of_le ht, List.take_zero, List.append_nil]

theorem makeApiCallLoop_attempts_le (retry_failed_calls : Bool)
    (oracle : Nat → ApiOutcome) :
    ∀ remaining attempts,
      (makeApiCallLoop retry_failed_calls oracle remaining attempts).2 ≤
        attempts + remaining := by
  intro remaining
  induction remaining with
  | zero => intro attempts; simp [makeApiCallLoop]
  | succ remaining ih =>
    intro attempts
    have h1 := ih (attempts + 1)
    cases h : oracle attempts <;>
      simp [makeApiCallLoop, h] <;>
      first
      | omega
      | (split <;> (try simp) <;> omega)

theorem makeApiCallLoop_all_fail (oracle : Nat → ApiOutcome)
    (hfail : ∀ i, oracle i ≠ ApiOutcome.ok) :
    ∀ remaining attempts,
      makeApiCallLoop true oracle remaining attempts =
        (none, attempts + remaining) := by
  intro remaining
  induction remaining with
  | zero => intro attempts; simp [makeApiCallLoop]
  | succ remaining ih =>
    intro attempts
    have h1 := ih (attempts + 1)
    cases h : oracle attempts with
    | ok => exact absurd h (hfail attempts)
    | authQuota => simp [makeApiCallLoop, h, h1]; omega
    | otherStatus => simp [makeApiCallLoop, h, h1]; omega
    | exn => simp [makeApiCallLoop, h, h1]; omega

theorem chunkStep_none_oracles (sfx_prompts : List (String × String))
    (g : Int → Int) (duration_ms : Nat) (sfx_overlap : Bool)
    (sbc : Nat) (p : List Int) (c : Chunk) :
    chunkStep (fun _ _ => none) (fun _ => none) sfx_prompts g duration_ms
      sfx_overlap sbc p c = p ++ silence sbc := by
  cases c with
  | dialogue speaker text => simp [chunkStep, synthesize, ite_self]
  | sfx effect =>
    cases h : sfx_prompts.lookup (pyLower effect) <;>
      simp [chunkStep, generate_sfx, h]

theorem foldl_none_oracles_length (sfx_prompts : List (String × String))
    (g : Int → Int) (duration_ms : Nat) (sfx_overlap : Bool) (sbc : Nat) :
    ∀ (chunks : List Chunk) (p : List Int),
      (chunks.foldl
        (chunkStep (fun _ _ => none) (fun _ => none) sfx_prompts g
          duration_ms sfx_overlap sbc) p).length =
        p.length + chunks.length * sbc := by
  intro chunks
  induction chunks with
  | nil => intro p; simp
  | cons c cs ih =>
    intro p
    rw [List.foldl_cons, chunkStep_none_oracles, ih]
    simp [silence]
    ring

theorem issueKeys_eq (api_keys : List String)
    (hn : 0 < api_keys.length) :
    ∀ (k current_index : Nat), current_index < api_keys.length →
      (issueKeys api_keys k current_index).1 =
        (List.range k).map
          (fun i => api_keys.getD ((current_index + i) % api_keys.length) "") ∧
      (issueKeys api_keys k current_index).2 =
        (current_index + k) % api_keys.length := by
  intro k
  induction k with
  | zero =>
    intro idx hidx
    simp [issueKeys, Nat.mod_eq_of_lt hidx]
  | succ k ih =>
    intro idx hidx
    have hnext : (idx + 1) % api_keys.length < api_keys.length :=
      Nat.mod_lt _ hn
    obtain ⟨ih1, ih2⟩ := ih ((idx + 1) % api_keys.length) hnext
    constructor
    · rw [List.range_succ_eq_map, List.map_cons, List.map_map]
      show (issueKeys api_keys (k + 1) idx).1 = _
      simp only [issueKeys, get_next_api_key, ih1]
      congr 1
      · rw [Nat.add_zero, Nat.mod_eq_of_lt hidx]
      · apply List.map_congr_left
        intro i _
        have hadd : idx + 1 + i = idx + i.succ := by omega
        rw [Nat.mod_add_mod, hadd]
        rfl
    · show (issueKeys api_keys (k + 1) idx).2 = _
      simp only [issueKeys, get_next_api_key, ih2]
      rw [Nat.mod_add_mod]
      congr 1
      omega

theorem count_range_mod (n j : Nat) (hn : 0 < n) (hj : j < n) :
    ∀ k, ((List.range k).map (fun i => i % n)).count j =
      k / n + (if j < k % n then 1 else 0) := by
  intro k
  induction k with
  | zero => simp
  | succ k ih =>
    rw [List.range_succ, List.map_append, List.count_append]
    have hmod : k % n < n := Nat.mod_lt _ hn
    have hdm : n * (k / n) + k % n = k := Nat.div_add_mod k n
    by_cases hr : k % n + 1 < n
    · have h1 : (k + 1) % n = k % n + 1 := by
        conv_lhs => rw [← hdm, Nat.add_assoc]
        rw [Nat.mul_add_mod, Nat.mod_eq_of_lt hr]
      have h2 : (k + 1) / n = k / n := by
        conv_lhs => rw [← hdm, Nat.add_assoc]
        rw [Nat.mul_add_div hn, Nat.div_eq_of_lt hr, Nat.add_zero]
      rw [ih, h1, h2]
      simp only [List.map_cons, List.map_nil]
      rw [List.count_singleton']
      split_ifs <;> simp_all <;> omega
    · have hrn : k % n + 1 = n := by omega
      have hk1 : k + 1 = n * (k / n + 1) := by
        rw [Nat.mul_succ]
        omega
      have h1 : (k + 1) % n = 0 := by
        rw [hk1, Nat.mul_mod_right]
      have h2 : (k + 1) / n = k / n + 1 := by
        rw [hk1, Nat.mul_div_cancel_left _ hn]
      rw [ih, h1, h2]
      simp only [List.map_cons, List.map_nil]
      rw [List.count_singleton']
      split_ifs <;> simp_all <;> omega

theorem lookup_append_of_none {β : Type} (l1 l2 : List (String × β))
    (key : String) (h : l1.lookup key = none) :
    (l1 ++ l2).lookup key = l2.lookup key := by
  induction l1 with
  | nil => rfl
  | cons a t ih =>
    rw [List.cons_append]
    cases hk : key == a.1 with
    | true => simp [List.lookup, hk] at h
    | false =>
      simp only [List.lookup, hk] at h ⊢
      exact ih h

theorem lookup_cons_of_beq {β : Type} (key k : String) (v : β)
    (t : List (String × β)) (h : (key == k) = true) :
    ((k, v) :: t).lookup key = some v := by
  simp [List.lookup, h]

theorem lookup_cons_of_bne {β : Type} (key k : String) (v : β)
    (t : List (String × β)) (h : (key == k) = false) :
    ((k, v) :: t).lookup key = t.lookup key := by
  simp [List.lookup, h]

theorem lookup_map_update (key : String) (cu : Nat) (rec : CallRecord)
    (l : List (String × KeyLog)) :
    (l.map (fun e =>
      if e.1 = key then
        (e.1, (⟨e.2.total_credits_used + cu, e.2.calls ++ [rec]⟩ : KeyLog))
      else e)).lookup key =
      (l.lookup key).map (fun kl =>
        (⟨kl.total_credits_used + cu, kl.calls ++ [rec]⟩ : KeyLog)) := by
  induction l with
  | nil => rfl
  | cons a t ih =>
    obtain ⟨ak, av⟩ := a
    by_cases hk : ak = key
    · subst hk
      rw [List.map_cons, if_pos rfl,
        lookup_cons_of_beq _ _ _ _ (beq_self_eq_true ak),
        lookup_cons_of_beq _ _ _ _ (beq_self_eq_true ak)]
      rfl
    · have hk2 : (key == ak) = false := by
        simp only [beq_eq_false_iff_ne]
        exact fun he => hk he.symm
      rw [List.map_cons, if_neg hk,
        lookup_cons_of_bne _ _ _ _ hk2,
        lookup_cons_of_bne _ _ _ _ hk2, ih]

/-! ## Claim theorems -/

/-- Claim C1: with retrying enabled, `make_api_call` attempts the
outbound call at most `max_retries` times; every failure kind (auth or
quota status, other non-200 status, or a raised exception) consumes
exactly one retry attempt; a call failing on every attempt makes
exactly `max_retries` attempts and returns the exhausted failure result
(`None`). -/
theorem make_api_call_exhausts_retries (oracle : Nat → ApiOutcome)
    (max_retries : Nat) :
    (make_api_call true oracle max_retries).2 ≤ max_retries ∧
    ((∀ i, oracle i ≠ ApiOutcome.ok) →
      make_api_call true oracle max_retries = (none, max_retries)) ∧
    (∀ remaining attempts, oracle attempts ≠ ApiOutcome.ok →
      makeApiCallLoop true oracle (remaining + 1) attempts =
        makeApiCallLoop true oracle remaining (attempts + 1)) := by
  refine ⟨?_, ?_, ?_⟩
  · have h := makeApiCallLoop_attempts_le true oracle max_retries 0
    simpa [make_api_call] using h
  · intro hfail
    have h := makeApiCallLoop_all_fail oracle hfail max_retries 0
    simpa [make_api_call] using h
  · intro remaining attempts hne
    cases h : oracle attempts with
    | ok => exact absurd h hne
    | authQuota => simp [makeApiCallLoop, h]
    | otherStatus => simp [makeApiCallLoop, h]
    | exn => simp [makeApiCallLoop, h]

theorem make_api_call_exhausts_retries_witness :
    (make_api_call true (fun _ => ApiOutcome.authQuota) 3).2 ≤ 3 ∧
    make_api_call true (fun _ => ApiOutcome.authQuota) 3 = (none, 3) :=
  ⟨(make_api_call_exhausts_retries (fun _ => ApiOutcome.authQuota) 3).1,
   (make_api_call_exhausts_retries (fun _ => ApiOutcome.authQuota) 3).2.1
     (fun _ h => ApiOutcome.noConfusion h)⟩

/-- Claim C2: calling `get_next_api_key` `k` times on a pool of `n`
keys returns the keys in cyclic order (the `i`-th issued key is the one
at index `i mod n`), the cursor advances modulo the pool size on every
issuance (after `k` issuances it is `k mod n`), and each index is
issued exactly `k / n` or `k / n + 1` times, independent of call
success or failure (the model has no success input at all). -/
theorem get_next_api_key_round_robin (api_keys : List String) (k : Nat)
    (h : api_keys ≠ []) :
    (issueKeys api_keys k 0).1 =
      (List.range k).map (fun i => api_keys.getD (i % api_keys.length) "") ∧
    (issueKeys api_keys k 0).2 = k % api_keys.length ∧
    ∀ j, j < api_keys.length →
      ((List.range k).map (fun i => i % api_keys.length)).count j =
        k / api_keys.length +
          (if j < k % api_keys.length then 1 else 0) ∧
      (((List.range k).map (fun i => i % api_keys.length)).count j =
          k / api_keys.length ∨
       ((List.range k).map (fun i => i % api_keys.length)).count j =
          k / api_keys.length + 1) := by
  have hn : 0 < api_keys.length := List.length_pos.mpr h
  obtain ⟨h1, h2⟩ := issueKeys_eq api_keys hn k 0 hn
  refine ⟨by simpa using h1, by simpa using h2, ?_⟩
  intro j hj
  have hc := count_range_mod api_keys.length j hn hj k
  refine ⟨hc, ?_⟩
  rw [hc]
  split_ifs <;> simp

theorem get_next_api_key_round_robin_witness :
    (issueKeys ["a", "b"] 5 0).1 =
      (List.range 5).map (fun i => (["a", "b"]).getD (i % (["a", "b"]).length) "") ∧
    (issueKeys ["a", "b"] 5 0).2 = 5 % (["a", "b"]).length ∧
    ((List.range 5).map (fun i => i % (["a", "b"]).length)).count 0 =
      5 / (["a", "b"]).length +
        (if 0 < 5 % (["a", "b"]).length then 1 else 0) :=
  ⟨(get_next_api_key_round_robin ["a", "b"] 5 (by decide)).1,
   (get_next_api_key_round_robin ["a", "b"] 5 (by decide)).2.1,
   ((get_next_api_key_round_robin ["a", "b"] 5 (by decide)).2.2 0
     (by decide)).1⟩

/-- Claim C4: for every clip of positive natural duration, the fitting
step of `generate_sfx` returns exactly the spec's fitting rule — the
first `t` ms when too long, `ceil(t/d)` tiled copies truncated to `t`
when too short, unchanged when equal — and the output's duration is
exactly `t`. -/
theorem fit_duration_matches_spec (sfx : List Int) (duration_ms : Nat)
    (hd : 0 < sfx.length) :
    fit_duration sfx duration_ms = some (fitSpec sfx duration_ms) ∧
    (fitSpec sfx duration_ms).length = duration_ms := by
  by_cases h1 : duration_ms < sfx.length
  · rw [fit_duration, fitSpec, if_pos h1, if_pos h1]
    refine ⟨rfl, ?_⟩
    simp
    omega
  · by_cases h2 : sfx.length < duration_ms
    · have hq : sfx.length * (duration_ms / sfx.length) +
          duration_ms % sfx.length = duration_ms := Nat.div_add_mod _ _
      have hm : duration_ms % sfx.length < sfx.length := Nat.mod_lt _ hd
      have hceil : sfx.length * ((duration_ms + sfx.length - 1) / sfx.length) +
          (duration_ms + sfx.length - 1) % sfx.length =
            duration_ms + sfx.length - 1 := Nat.div_add_mod _ _
      have hceilm : (duration_ms + sfx.length - 1) % sfx.length < sfx.length :=
        Nat.mod_lt _ hd
      have ht0 : duration_ms ≤
          sfx.length * ((duration_ms + sfx.length - 1) / sfx.length) := by
        omega
      have ht : duration_ms ≤
          ((duration_ms + sfx.length - 1) / sfx.length) * sfx.length := by
        rwa [Nat.mul_comm] at ht0
      have hle : (duration_ms + sfx.length - 1) / sfx.length ≤
          duration_ms / sfx.length + 1 := by
        have := Nat.div_le_div_right (c := sfx.length)
          (show duration_ms + sfx.length - 1 ≤ duration_ms + sfx.length by
            omega)
        rwa [Nat.add_div_right _ hd] at this
      rw [fit_duration, fitSpec, if_neg h1, if_neg h1, if_pos h2, if_pos h2,
        if_neg (by omega)]
      refine ⟨?_, ?_⟩
      · show some ((tile sfx (duration_ms / sfx.length + 1)).take duration_ms)
            = _
        rw [tile_take_eq sfx duration_ms
          ((duration_ms + sfx.length - 1) / sfx.length)
          (duration_ms / sfx.length + 1) hle ht]
      · rw [List.length_take, tile_length]
        omega
    · have he : sfx.length = duration_ms := by omega
      rw [fit_duration, fitSpec, if_neg h1, if_neg h1, if_neg h2, if_neg h2]
      exact ⟨rfl, he⟩

theorem fit_duration_matches_spec_witness :
    fit_duration [(5 : Int)] 3 = some (fitSpec [(5 : Int)] 3) ∧
    (fitSpec [(5 : Int)] 3).length = 3 :=
  fit_duration_matches_spec [(5 : Int)] 3 (by decide)

/-- Claim C5: parsing the script
`"[SPEAKER: A]\nHello\n[SFX: door]\nWorld"` yields exactly the chunks
`[Dialogue(A, "Hello"), Effect("door"), Dialogue(A, "World")]`: the
speaker tag flushes buffered text under the previous speaker and emits
no chunk itself, the SFX tag flushes the buffer and emits an effect
chunk immediately, and the final buffered text is flushed at end of
input. -/
theorem parse_example_script :
    parse ["[SPEAKER: A]\n", "Hello\n", "[SFX: door]\n", "World"] =
      [Chunk.dialogue "A" "Hello", Chunk.sfx "door",
       Chunk.dialogue "A" "World"] := by decide

/-- Claim C8: duration fitting is total only for clips of positive
duration: a zero-duration clip with a positive target hits the
unguarded `duration_ms // len(sfx)` division and raises
(`none` in the embedding), while every clip with positive duration is
fitted successfully. -/
theorem fit_duration_zero_clip_raises (sfx : List Int) (duration_ms : Nat) :
    (sfx.length = 0 → 0 < duration_ms → fit_duration sfx duration_ms = none) ∧
    (0 < sfx.length → (fit_duration sfx duration_ms).isSome = true) := by
  constructor
  · intro h0 ht
    rw [fit_duration, if_neg (by omega), if_pos (by omega), if_pos h0]
  · intro hd
    rw [fit_duration]
    split_ifs with h1 h2 h3 <;> simp <;> omega

theorem fit_duration_zero_clip_raises_witness :
    fit_duration ([] : List Int) 5 = none ∧
    (fit_duration [(1 : Int)] 3).isSome = true :=
  ⟨(fit_duration_zero_clip_raises ([] : List Int) 5).1 rfl (by decide),
   (fit_duration_zero_clip_raises [(1 : Int)] 3).2 (by decide)⟩

/-- Claim C3: appending an effect chunk when the buffer is at most the
2000 ms overlap window grows the buffer by exactly the fitted,
gain-adjusted effect's length plus the trailing silence, with no
overlay; when the buffer exceeds 2000 ms the effect is additively
overlaid onto the last 2000 ms (truncated to that tail when longer) and
the buffer grows by at most `max(0, effectLength - 2000)` (written with
truncated subtraction) plus the trailing silence. -/
theorem effect_append_growth (sfx_overlap : Bool) (sbc : Nat)
    (p e : List Int) :
    (p.length ≤ 2000 →
      overlaySfx sfx_overlap p e ++ silence sbc = p ++ e ++ silence sbc ∧
      (overlaySfx sfx_overlap p e ++ silence sbc).length =
        p.length + e.length + sbc) ∧
    (sfx_overlap = true → 2000 < p.length →
      overlaySfx sfx_overlap p e =
        p.take (p.length - 2000) ++
          overlay (p.drop (p.length - 2000))
            (if 2000 < e.length then e.take 2000 else e) ∧
      (overlaySfx sfx_overlap p e ++ silence sbc).length =
        p.length + sbc ∧
      (overlaySfx sfx_overlap p e ++ silence sbc).length ≤
        p.length + (e.length - 2000) + sbc) := by
  constructor
  · intro hle
    have hcond : ¬(sfx_overlap = true ∧ 2000 < p.length) := by
      rintro ⟨_, hgt⟩
      omega
    have h1 : overlaySfx sfx_overlap p e = p ++ e := by
      rw [overlaySfx, if_neg hcond]
    rw [h1]
    refine ⟨by rw [List.append_assoc], ?_⟩
    simp [silence]
    omega
  · intro hov hgt
    have hdlen : (p.drop (p.length - 2000)).length = 2000 := by
      rw [List.length_drop]
      omega
    have h1 : overlaySfx sfx_overlap p e =
        p.take (p.length - 2000) ++
          overlay (p.drop (p.length - 2000))
            (if 2000 < e.length then e.take 2000 else e) := by
      rw [overlaySfx, if_pos ⟨hov, hgt⟩, hdlen]
    have h2 : (overlaySfx sfx_overlap p e ++ silence sbc).length =
        p.length + sbc := by
      rw [h1]
      simp [overlay_length, silence]
      omega
    exact ⟨h1, h2, by omega⟩

theorem effect_append_growth_witness :
    (overlaySfx true (silence 1000) (silence 100) ++ silence 200 =
        silence 1000 ++ silence 100 ++ silence 200 ∧
      (overlaySfx true (silence 1000) (silence 100) ++ silence 200).length =
        (silence 1000).length + (silence 100).length + 200) ∧
    (overlaySfx true (silence 2500) (silence 100) =
        (silence 2500).take ((silence 2500).length - 2000) ++
          overlay ((silence 2500).drop ((silence 2500).length - 2000))
            (if 2000 < (silence 100).length then (silence 100).take 2000
             else silence 100) ∧
      (overlaySfx true (silence 2500) (silence 100) ++ silence 200).length =
        (silence 2500).length + 200 ∧
      (overlaySfx true (silence 2500) (silence 100) ++ silence 200).length ≤
        (silence 2500).length + ((silence 100).length - 2000) + 200) :=
  ⟨(effect_append_growth true 200 (silence 1000) (silence 100)).1
      (by rw [silence_length]; omega),
   (effect_append_growth true 200 (silence 2500) (silence 100)).2 rfl
      (by rw [silence_length]; omega)⟩

/-- Claim C6: per-chunk synthesis failures (exhausted retries modelled
as a `none` oracle answer, empty or whitespace-only dialogue text, or
an unknown effect name) never cause `generate` to abort or to report
overall failure: for every oracle, whenever parsing yields at least one
chunk the run completes with a `true` result. -/
theorem generate_skips_failed_chunks
    (speechOracle : String → String → Option (List Int))
    (sfxOracle : String → Option (List Int))
    (sfx_prompts : List (String × String)) (g : Int → Int)
    (duration_ms : Nat) (sfx_overlap : Bool)
    (intro_silence sbc : Nat) (scriptLines : List String)
    (h : parse scriptLines ≠ []) :
    (generate speechOracle sfxOracle sfx_prompts g duration_ms sfx_overlap
      intro_silence sbc scriptLines).1 = true := by
  obtain ⟨c, cs, hp⟩ := List.exists_cons_of_ne_nil h
  simp [generate, hp]

theorem generate_skips_failed_chunks_witness :
    (generate (fun _ _ => none) (fun _ => none) [] (fun s => s) 3000 true
      500 200 ["[SPEAKER: A]\n", "Hello\n", "[SFX: door]\n"]).1 = true :=
  generate_skips_failed_chunks (fun _ _ => none) (fun _ => none) []
    (fun s => s) 3000 true 500 200
    ["[SPEAKER: A]\n", "Hello\n", "[SFX: door]\n"] (by decide)

theorem overlaySfx_length_ge (sfx_overlap : Bool) (p clip : List Int) :
    p.length ≤ (overlaySfx sfx_overlap p clip).length := by
  rw [overlaySfx]
  split_ifs with h h2 <;> simp [overlay_length] <;> omega

theorem chunkStep_length_ge
    (speechOracle : String → String → Option (List Int))
    (sfxOracle : String → Option (List Int))
    (sfx_prompts : List (String × String)) (g : Int → Int)
    (duration_ms : Nat) (sfx_overlap : Bool) (sbc : Nat)
    (p : List Int) (c : Chunk) :
    p.length + sbc ≤
      (chunkStep speechOracle sfxOracle sfx_prompts g duration_ms
        sfx_overlap sbc p c).length := by
  cases c with
  | dialogue speaker text =>
    simp only [chunkStep]
    cases h : synthesize speechOracle text speaker with
    | none =>
      show p.length + sbc ≤ (p ++ silence sbc).length
      simp only [List.length_append, silence_length]
      omega
    | some audio =>
      show p.length + sbc ≤ (p ++ silence 300 ++ audio ++ silence sbc).length
      simp only [List.length_append, silence_length]
      omega
  | sfx effect =>
    simp only [chunkStep]
    cases h : generate_sfx sfx_prompts sfxOracle g duration_ms effect with
    | none =>
      show p.length + sbc ≤ (p ++ silence sbc).length
      simp only [List.length_append, silence_length]
      omega
    | some clip =>
      show p.length + sbc ≤
        (overlaySfx sfx_overlap p clip ++ silence sbc).length
      have hov := overlaySfx_length_ge sfx_overlap p clip
      simp only [List.length_append, silence_length]
      omega

theorem foldl_chunkStep_length_ge
    (speechOracle : String → String → Option (List Int))
    (sfxOracle : String → Option (List Int))
    (sfx_prompts : List (String × String)) (g : Int → Int)
    (duration_ms : Nat) (sfx_overlap : Bool) (sbc : Nat) :
    ∀ (chunks : List Chunk) (p : List Int),
      p.length + chunks.length * sbc ≤
        (chunks.foldl
          (chunkStep speechOracle sfxOracle sfx_prompts g duration_ms
            sfx_overlap sbc) p).length := by
  intro chunks
  induction chunks with
  | nil => intro p; simp
  | cons c cs ih =>
    intro p
    rw [List.foldl_cons]
    have h1 := chunkStep_length_ge speechOracle sfxOracle sfx_prompts g
      duration_ms sfx_overlap sbc p c
    have h2 := ih (chunkStep speechOracle sfxOracle sfx_prompts g
      duration_ms sfx_overlap sbc p c)
    simp only [List.length_cons]
    calc p.length + (cs.length + 1) * sbc
        = p.length + sbc + cs.length * sbc := by ring
      _ ≤ _ := by omega

/-- Claim C9: the inter-chunk trailing silence is appended once per
parsed chunk whether or not the chunk's audio was produced: for every
pair of oracles the timeline is at least the lead-in silence plus
`numberOfChunks` copies of the inter-chunk silence, and in a run where
every chunk fails (both oracles always `none`) it is exactly that. -/
theorem trailing_silence_per_failed_chunk
    (speechOracle : String → String → Option (List Int))
    (sfxOracle : String → Option (List Int))
    (sfx_prompts : List (String × String)) (g : Int → Int)
    (duration_ms : Nat) (sfx_overlap : Bool)
    (intro_silence sbc : Nat) (scriptLines : List String)
    (h : parse scriptLines ≠ []) :
    intro_silence + (parse scriptLines).length * sbc ≤
      (generate speechOracle sfxOracle sfx_prompts g duration_ms
        sfx_overlap intro_silence sbc scriptLines).2.length ∧
    (generate (fun _ _ => none) (fun _ => none) sfx_prompts g duration_ms
      sfx_overlap intro_silence sbc scriptLines).2.length =
      intro_silence + (parse scriptLines).length * sbc := by
  obtain ⟨c, cs, hp⟩ := List.exists_cons_of_ne_nil h
  constructor
  · simp only [generate, hp, List.isEmpty_cons, Bool.false_eq_true,
      if_false]
    have := foldl_chunkStep_length_ge speechOracle sfxOracle sfx_prompts g
      duration_ms sfx_overlap sbc (c :: cs) (silence intro_silence)
    rw [silence_length] at this
    simpa [hp] using this
  · simp only [generate, hp, List.isEmpty_cons, Bool.false_eq_true,
      if_false]
    rw [foldl_none_oracles_length, silence_length]

theorem trailing_silence_per_failed_chunk_witness :
    500 + (parse ["[SPEAKER: A]\n", "Hello\n", "[SFX: door]\n"]).length
        * 200 ≤
      (generate (fun _ _ => some [1, 2]) (fun _ => some [3]) []
        (fun s => s) 3000 true 500 200
        ["[SPEAKER: A]\n", "Hello\n", "[SFX: door]\n"]).2.length ∧
    (generate (fun _ _ => none) (fun _ => none) [] (fun s => s) 3000 true
      500 200 ["[SPEAKER: A]\n", "Hello\n", "[SFX: door]\n"]).2.length =
      500 + (parse ["[SPEAKER: A]\n", "Hello\n", "[SFX: door]\n"]).length
        * 200 :=
  trailing_silence_per_failed_chunk (fun _ _ => some [1, 2])
    (fun _ => some [3]) [] (fun s => s) 3000 true 500 200
    ["[SPEAKER: A]\n", "Hello\n", "[SFX: door]\n"] (by decide)

/-- Claim C10: when parsing yields no chunks (for example a script of
only blank lines or only speaker tags), `generate` returns failure
immediately: the result is `(false, [])` for every oracle, so no
synthesis call can influence it and nothing is assembled or exported. -/
theorem generate_empty_script_fails
    (speechOracle : String → String → Option (List Int))
    (sfxOracle : String → Option (List Int))
    (sfx_prompts : List (String × String)) (g : Int → Int)
    (duration_ms : Nat) (sfx_overlap : Bool)
    (intro_silence sbc : Nat) (scriptLines : List String)
    (h : parse scriptLines = []) :
    generate speechOracle sfxOracle sfx_prompts g duration_ms sfx_overlap
      intro_silence sbc scriptLines = (false, []) := by
  simp [generate, h]

theorem generate_empty_script_fails_witness :
    generate (fun _ _ => some [1]) (fun _ => some [1]) [] (fun s => s)
      3000 true 500 200 ["[SPEAKER: A]\n", "\n", "[SPEAKER: B]\n"] =
      (false, []) :=
  generate_empty_script_fails (fun _ _ => some [1]) (fun _ => some [1]) []
    (fun s => s) 3000 true 500 200
    ["[SPEAKER: A]\n", "\n", "[SPEAKER: B]\n"] (by decide)

theorem ledgerWf_append_fresh (credits_log : List (String × KeyLog))
    (key : String) (hwf : ledgerWf credits_log) :
    ledgerWf (credits_log ++ [(key, ⟨0, []⟩)]) := by
  intro e he
  rw [List.mem_append] at he
  cases he with
  | inl h => exact hwf e h
  | inr h =>
    rw [List.mem_singleton] at h
    subst h
    rfl

theorem ledgerWf_map_update (l : List (String × KeyLog)) (key : String)
    (cu : Nat) (rec : CallRecord) (hrec : rec.credits_used = cu)
    (hwf : ledgerWf l) :
    ledgerWf (l.map (fun e =>
      if e.1 = key then
        (e.1, (⟨e.2.total_credits_used + cu, e.2.calls ++ [rec]⟩ : KeyLog))
      else e)) := by
  intro e he
  rw [List.mem_map] at he
  obtain ⟨a, ha, rfl⟩ := he
  by_cases hk : a.1 = key
  · rw [if_pos hk]
    have hsum := hwf a ha
    simp only [List.map_append, List.sum_append, List.map_cons,
      List.map_nil, List.sum_cons, List.sum_nil]
    rw [hsum, hrec]
    omega
  · rw [if_neg hk]
    exact hwf a ha

/-- Claim C7: a `log_credit_usage` call appends exactly one usage record
for the key's display id, adds its credits to that entry's running
total, and preserves the ledger invariant that every entry's running
total equals the sum of `credits_used` over its recorded calls
(assuming the invariant held in the loaded ledger; persistence is an
external file write). -/
theorem log_credit_usage_invariant (credits_log : List (String × KeyLog))
    (api_key : String) (character_count credits_used : Nat)
    (operation_type timestamp : String) (hwf : ledgerWf credits_log) :
    ledgerWf (log_credit_usage credits_log api_key character_count
      credits_used operation_type timestamp) ∧
    (log_credit_usage credits_log api_key character_count credits_used
      operation_type timestamp).lookup (keyId api_key) =
      some (match credits_log.lookup (keyId api_key) with
        | some old =>
          (⟨old.total_credits_used + credits_used,
            old.calls ++ [⟨timestamp, operation_type, character_count,
              credits_used⟩]⟩ : KeyLog)
        | none =>
          (⟨0 + credits_used,
            [] ++ [⟨timestamp, operation_type, character_count,
              credits_used⟩]⟩ : KeyLog)) := by
  have hdef : log_credit_usage credits_log api_key character_count
      credits_used operation_type timestamp =
      (if (credits_log.lookup (keyId api_key)).isSome then credits_log
       else credits_log ++ [(keyId api_key, ⟨0, []⟩)]).map (fun e =>
        if e.1 = keyId api_key then
          (e.1, (⟨e.2.total_credits_used + credits_used,
            e.2.calls ++ [⟨timestamp, operation_type, character_count,
              credits_used⟩]⟩ : KeyLog))
        else e) := rfl
  cases hl : credits_log.lookup (keyId api_key) with
  | none =>
    have hlog1 : (if (credits_log.lookup (keyId api_key)).isSome then
        credits_log else credits_log ++ [(keyId api_key, ⟨0, []⟩)]) =
        credits_log ++ [(keyId api_key, ⟨0, []⟩)] := by
      rw [hl]
      rfl
    rw [hdef, hlog1]
    constructor
    · exact ledgerWf_map_update _ _ _ _ rfl
        (ledgerWf_append_fresh credits_log (keyId api_key) hwf)
    · rw [lookup_map_update, lookup_append_of_none _ _ _ hl,
        lookup_cons_of_beq _ _ _ _ (beq_self_eq_true (keyId api_key))]
      rfl
  | some old =>
    have hlog1 : (if (credits_log.lookup (keyId api_key)).isSome then
        credits_log else credits_log ++ [(keyId api_key, ⟨0, []⟩)]) =
        credits_log := by
      rw [hl]
      rfl
    rw [hdef, hlog1]
    constructor
    · exact ledgerWf_map_update _ _ _ _ rfl hwf
    · rw [lookup_map_update, hl]
      rfl

theorem log_credit_usage_invariant_witness :
    ledgerWf (log_credit_usage [] "abcdefghij" 4 4 "speech_synthesis"
      "2025-01-01T00:00:00") ∧
    (log_credit_usage [] "abcdefghij" 4 4 "speech_synthesis"
      "2025-01-01T00:00:00").lookup (keyId "abcdefghij") =
      some (match ([] : List (String × KeyLog)).lookup (keyId "abcdefghij")
        with
        | some old =>
          (⟨old.total_credits_used + 4,
            old.calls ++ [⟨"2025-01-01T00:00:00", "speech_synthesis", 4,
              4⟩]⟩ : KeyLog)
        | none =>
          (⟨0 + 4,
            [] ++ [⟨"2025-01-01T00:00:00", "speech_synthesis", 4,
              4⟩]⟩ : KeyLog)) :=
  log_credit_usage_invariant [] "abcdefghij" 4 4 "speech_synthesis"
    "2025-01-01T00:00:00" (by intro e he; cases he)
